import Mathlib

/-! The modelq code generator (`codegen.go`).

A shallow embedding of the schema-driven code generator: the identifier
normalizer `toCapitalCase`, the column-type mapping and the struct emitter
`writeStruct`, followed by the properties proved about them.

Go strings and `[]byte` values are lists of bytes; a byte is a natural
number below 256.  Byte arithmetic is written with an explicit `% 256`.
A Go run-time panic (index out of range) is the result `none`.
-/

namespace ModelQ

/-- A Go `string` or `[]byte`: its bytes in order. -/
abbrev Bytes := List Nat

/-- The bytes of an ASCII string literal. -/
def ascii (s : String) : Bytes := s.data.map Char.toNat

/-! ## Character classes used by `toCapitalCase` -/

/-- The test `ch >= 'a' && ch <= 'z'`. -/
def isLower (ch : Nat) : Bool := decide (97 ≤ ch) && decide (ch ≤ 122)

/-- The test `ch >= 'A' && ch <= 'Z'`. -/
def isUpper (ch : Nat) : Bool := decide (65 ≤ ch) && decide (ch ≤ 90)

/-- The test `(ch >= 'a' && ch <= 'z') || (ch >= 'A' && ch <= 'Z')`. -/
def isLetter (ch : Nat) : Bool := isLower ch || isUpper ch

/-- The test `ch >= '0' && ch <= '9'`. -/
def isDigit (ch : Nat) : Bool := decide (48 ≤ ch) && decide (ch ≤ 57)

/-- A byte that `toCapitalCase` keeps: an ASCII letter or digit. -/
def isAlnum (ch : Nat) : Bool := isLetter ch || isDigit ch

/-- The assignment `ch = ch - 'a' + 'A'` guarded by `ch >= 'a' && ch <= 'z'`. -/
def upcase (ch : Nat) : Nat := if isLower ch then (ch - 97 + 65) % 256 else ch

/-- The assignment `ch = ch - 'A' + 'a'` guarded by `ch >= 'A' && ch <= 'Z'`. -/
def downcase (ch : Nat) : Nat := if isUpper ch then (ch - 65 + 97) % 256 else ch

/-! ## `toCapitalCase`: the in-place loop of the source -/

/-- The local variables of `toCapitalCase` that the loop updates. -/
structure CapState where
  data : Bytes
  segStart : Bool
  endPos : Nat
  deriving DecidableEq, Repr

/-- The store `data[endPos] = ch; endPos++`, a panic when `endPos` is out of range. -/
def CapState.put (st : CapState) (ch : Nat) (seg : Bool) : Option CapState :=
  if st.endPos < st.data.length then
    some { data := st.data.set st.endPos ch, segStart := seg, endPos := st.endPos + 1 }
  else none

/-- One iteration of the loop body of `toCapitalCase` at index `i`. -/
def capStep (st : CapState) (i : Nat) : Option CapState :=
  match st.data[i]? with
  | none => none
  | some ch =>
    if isLetter ch then
      if st.segStart then st.put (upcase ch) false
      else st.put (downcase ch) false
    else if isDigit ch then st.put ch true
    else some { st with segStart := true }

/-- The loop `for i := 0; i < len(data); i++` run from the initial state. -/
def capLoop (name : Bytes) : Option CapState :=
  (List.range name.length).foldlM capStep { data := name, segStart := true, endPos := 0 }

/-- The function `toCapitalCase`: the loop, then `string(data[:endPos])`. -/
def toCapitalCase (name : Bytes) : Option Bytes :=
  match capLoop name with
  | none => none
  | some st => if st.endPos ≤ st.data.length then some (st.data.take st.endPos) else none

/-- The functional reading of the scan of `toCapitalCase`: the bytes emitted
for the input `l` when the start-of-segment flag is `seg`. -/
def capScan : Bool → Bytes → Bytes
  | _, [] => []
  | seg, ch :: rest =>
    if isLetter ch then (if seg then upcase ch else downcase ch) :: capScan false rest
    else if isDigit ch then ch :: capScan true rest
    else capScan true rest

/-- The start-of-segment flag after scanning `l` from the flag `seg`. -/
def capFlag : Bool → Bytes → Bool
  | seg, [] => seg
  | _, ch :: rest => capFlag (!isLetter ch) rest

/-! ## The column-type mapping and `writeStruct` -/

/-- A Go `error` value, by its message. -/
abbrev GoError := Bytes

/-- The package-level variables `kFieldTypes` and `kNullFieldTypes`: each map
as the list of its key-value pairs. -/
structure Globals where
  kFieldTypes : List (Bytes × Bytes)
  kNullFieldTypes : List (Bytes × Bytes)

/-- The function `init`: the values it assigns to the two package-level maps. -/
def init : Globals :=
  { kFieldTypes := [
      (ascii "bigint", ascii "int64"),
      (ascii "int", ascii "int"),
      (ascii "tinyint", ascii "int"),
      (ascii "char", ascii "string"),
      (ascii "varchar", ascii "string"),
      (ascii "datetime", ascii "time.Time"),
      (ascii "decimal", ascii "float64")],
    kNullFieldTypes := [
      (ascii "bigint", ascii "gmq.OptionInt64"),
      (ascii "int", ascii "gmq.OptionInt"),
      (ascii "tinyint", ascii "gmq.OptionInt"),
      (ascii "char", ascii "gmq.OptionString"),
      (ascii "varchar", ascii "gmq.OptionString"),
      (ascii "datetime", ascii "gmq.OptionTime"),
      (ascii "decimal", ascii "gmq.OptionFloat64")] }

/-- Modelled from the spec: the column record `_ColumnSchema`, whose declaration
is outside `codegen.go`; the fields are the ones section 3 of the specification
lists (column name, data type, nullability flag, comment), under the names
`writeStruct` reads them by. -/
structure ColumnSchema where
  colName : Bytes
  dataType : Bytes
  isNullable : Bool
  comment : Bytes
  deriving DecidableEq, Repr

/-- The type `_TableSchema`: the columns of a table in order. -/
abbrev TableSchema := List ColumnSchema

/-- The test that every byte of `s` is below `utf8.RuneSelf`. -/
def isASCII (s : Bytes) : Bool := s.all (fun c => decide (c < 128))

/-- The assignment `c += 'a' - 'A'` guarded by `'A' <= c && c <= 'Z'`. -/
def lowerASCII (c : Nat) : Nat := if isUpper c then (c + 97 - 65) % 256 else c

/-- The library function `strings.ToLower`.  On a string of ASCII bytes it
lower-cases byte by byte.  On any other string it maps
`unicode.ToLower` over the runes; the Unicode tables are not part of this
development, so that mapping is the parameter `uni`. -/
def stringsToLower (uni : Bytes → Bytes) (s : Bytes) : Bytes :=
  if isASCII s then s.map lowerASCII else uni s

/-- The library function `strings.Join`. -/
def stringsJoin : List Bytes → Bytes → Bytes
  | [], _ => []
  | [a], _ => a
  | a :: b :: rest, sep => a ++ sep ++ stringsJoin (b :: rest) sep

/-- The text `fmt.Sprintf` appends for the arguments no verb consumed. -/
def sprintfExtra : List Bytes → Bytes
  | [] => []
  | [a] => ascii "string=" ++ a
  | a :: b :: rest => ascii "string=" ++ a ++ ascii ", " ++ sprintfExtra (b :: rest)

/-- The library function `fmt.Sprintf` on the templates of this program: the
only verb is `%s` and every argument is a string.  A verb without an argument
prints `%!s(MISSING)` and arguments left over are listed after `%!(EXTRA `. -/
def sprintf : Bytes → List Bytes → Bytes
  | [], [] => []
  | [], a :: args => ascii "%!(EXTRA " ++ sprintfExtra (a :: args) ++ ascii ")"
  | [c], args => c :: sprintf [] args
  | c :: d :: rest, args =>
    if c = 37 ∧ d = 115 then
      match args with
      | a :: args' => a ++ sprintf rest args'
      | [] => ascii "%!s(MISSING)" ++ sprintf rest []
    else c :: sprintf (d :: rest) args

/-- The methods of `*bufio.Writer` that the program calls, over the state `W`
of the writer and of the file under it: each returns the state after the call
and the error of the call (`none` is Go's `nil`). -/
structure BufioWriter (W : Type) where
  WriteString : W → Bytes → W × Option GoError
  Flush : W → W × Option GoError

/-- The field type `writeStruct` chooses for a column of data type `dataType`:
the entry of `kFieldTypes` for the lower-cased data type, `string` when there
is none. -/
def columnFieldType (g : Globals) (uni : Bytes → Bytes) (dataType : Bytes) : Bytes :=
  let fieldTypes := g.kFieldTypes
  match fieldTypes.lookup (stringsToLower uni dataType) with
  | some fieldType => fieldType
  | none => ascii "string"

/-- The template `fieldTmpl` of `writeStruct`. -/
def fieldTmpl : Bytes := ascii "\t%s %s `json:\"%s\"`%s"

/-- The template `structTmpl` of `writeStruct`. -/
def structTmpl : Bytes := ascii "type %s struct \x7b\n%s\n\x7d"

/-- The body of the loop of `writeStruct`: the value stored in `fields[i]` for
the column `c`. -/
def fieldLine (g : Globals) (uni : Bytes → Bytes) (c : ColumnSchema) : Option Bytes := do
  let name ← toCapitalCase c.colName
  let fieldType := columnFieldType g uni c.dataType
  let comment := if c.comment ≠ [] then ascii " // " ++ c.comment else []
  pure (sprintf fieldTmpl [name, fieldType, c.colName, comment])

/-- The loop `for i, c := range schema` of `writeStruct`: the slice `fields`
once every column is done, in column order. -/
def fieldLines (g : Globals) (uni : Bytes → Bytes) : TableSchema → Option (List Bytes)
  | [] => some []
  | c :: rest => do
    let line ← fieldLine g uni c
    let lines ← fieldLines g uni rest
    pure (line :: lines)

/-- The function `writeStruct`: the state of the writer after the call and the
error returned, `none` at the top for a panic. -/
def writeStruct {W : Type} (bw : BufioWriter W) (g : Globals) (uni : Bytes → Bytes)
    (w : W) (name : Bytes) (schema : TableSchema) : Option (W × Option GoError) := do
  let typeName ← toCapitalCase name
  let fields ← fieldLines g uni schema
  let data := sprintf structTmpl [typeName, stringsJoin fields (ascii "\n")]
  pure (bw.WriteString w (data ++ ascii "\n"))

/-- A writer that keeps everything written to it and never fails. -/
def recorder : BufioWriter Bytes :=
  { WriteString := fun w s => (w ++ s, none),
    Flush := fun w => (w, none) }

/-- A column with its `isNullable` flag cleared. -/
def ColumnSchema.clearNullable (c : ColumnSchema) : ColumnSchema :=
  { c with isNullable := false }

/-- The capitalization rule as documented, read off the input by position:
the byte emitted for position `i` of `name`, if any.  A letter is upper-cased
when it is the first byte or the byte before it is not a letter, and
lower-cased otherwise; a digit is kept; any other byte emits nothing. -/
def ruleAt (name : Bytes) (i : Nat) : Option Nat :=
  if isLetter (name.getD i 0) then
    if i = 0 ∨ isLetter (name.getD (i - 1) 0) = false then some (upcase (name.getD i 0))
    else some (downcase (name.getD i 0))
  else if isDigit (name.getD i 0) then some (name.getD i 0)
  else none

/-- The documented capitalization rule applied at every position of `name`. -/
def capitalizeByRule (name : Bytes) : Bytes :=
  (List.range name.length).filterMap (ruleAt name)

/-- A run of separators stands between two letters of `x`: a letter, then one
or more bytes that are neither letters nor digits, then a letter. -/
def SeparatorBetweenLetters (x : Bytes) : Prop :=
  ∃ a l seps m b, x = a ++ l :: (seps ++ m :: b) ∧ isLetter l = true ∧ isLetter m = true ∧
    seps ≠ [] ∧ ∀ s ∈ seps, isAlnum s = false

/-- The next letter or digit of `x`, if any, is a letter. -/
def LetterNext (x : Bytes) : Prop :=
  ∃ seps m b, x = seps ++ m :: b ∧ isLetter m = true ∧ ∀ s ∈ seps, isAlnum s = false

/-- The input `x` starts with a separator whose next letter or digit is a letter. -/
def SepsThenLetter (x : Bytes) : Prop :=
  ∃ d l, x = d :: l ∧ isAlnum d = false ∧ LetterNext l

/-- Scanning the output of a scan: `true` when a second pass started with the
flag `g` recases some byte that the first pass, started with the flag `f`,
emits for `x`. -/
def recased : Bool → Bool → Bytes → Bool
  | _, _, [] => false
  | f, g, ch :: rest =>
    if isLetter ch then (f != g) || recased false false rest
    else if isDigit ch then recased true true rest
    else recased true g rest

/-! ## `generateModel` and the header and footer blocks -/

/-- The struct `_CodeConfig`. -/
structure CodeConfig where
  packageName : Bytes
  touchTimestamp : Bool
  deriving DecidableEq, Repr

/-- The operating-system and library calls of `generateModel`, over the state
`W` of a buffered writer and of the file under it.  `Create` is `os.Create`
followed by `bufio.NewWriter`: the state of the fresh writer, or the error of
`os.Create`.  `Close` is `file.Close()`, whose result the program drops.
`Join` is `path.Join`. -/
structure FileSys (W : Type) where
  Create : Bytes → Except GoError W
  Close : W → W
  Join : Bytes → Bytes → Bytes

/-- The template `tmpl` of `writeCodeHeader`. -/
def headerTmpl : Bytes :=
  ascii "// Code generated by ModelQ, %s\n// %s.go contains model for the database table [%s.%s]\n\npackage %s\n\nimport (\n\t\"time\"\n\t\"github.com/mijia/modelq/gmq\"\n\t\"database/sql\"\n)"

/-- The template `tmpl` of `writeCodeFooter`. -/
def footerTmpl : Bytes :=
  ascii "// just to bypass the golang import check\nvar _ = time.Now\nvar _ sql.DB\nvar _ gmq.OptionInt\n"

/-- The function `writeCodeHeader`; `now` is the value of
`time.Now().Format("2006-01-02 15:04")`. -/
def writeCodeHeader {W : Type} (bw : BufioWriter W) (now : Bytes) (w : W)
    (dbName tName pName : Bytes) : W × Option GoError :=
  let data := sprintf headerTmpl [now, tName, dbName, tName, pName]
  bw.WriteString w (data ++ ascii "\n\n")

/-- The function `writeCodeFooter`. -/
def writeCodeFooter {W : Type} (bw : BufioWriter W) (w : W) : W × Option GoError :=
  bw.WriteString w (footerTmpl ++ ascii "\n\n")

/-- What a call of `generateModel` leaves: the state of the destination once
the deferred `w.Flush(); file.Close()` has run (`none` when the file was not
created) and the error returned. -/
structure GenResult (W : Type) where
  file : Option W
  err : Option GoError
  deriving DecidableEq

/-- The deferred function of `generateModel`: `w.Flush()` then `file.Close()`,
both results dropped. -/
def deferred {W : Type} (fs : FileSys W) (bw : BufioWriter W) (w : W) : W :=
  fs.Close (bw.Flush w).1

/-- The function `generateModel`, `none` for a panic. -/
def generateModel {W : Type} (fs : FileSys W) (bw : BufioWriter W) (g : Globals)
    (uni : Bytes → Bytes) (now : Bytes) (dbName tName : Bytes) (schema : TableSchema)
    (config : CodeConfig) : Option (GenResult W) :=
  match fs.Create (fs.Join config.packageName (tName ++ ascii ".go")) with
  | .error err => some { file := none, err := some err }
  | .ok w =>
    match writeCodeHeader bw now w dbName tName config.packageName with
    | (w₁, some _) =>
      some { file := some (deferred fs bw w₁),
             err := some (sprintf (ascii "[%s] Error when writing the header into file.") [tName]) }
    | (w₁, none) =>
      match writeStruct bw g uni w₁ tName schema with
      | none => none
      | some (w₂, some _) =>
        some { file := some (deferred fs bw w₂),
               err := some (sprintf
                 (ascii "[%s] Error when generating model struct into file.") [tName]) }
      | some (w₂, none) =>
        match writeCodeFooter bw w₂ with
        | (w₃, some _) =>
          some { file := some (deferred fs bw w₃),
                 err := some (sprintf
                   (ascii "[%s] Error when generating footer into file.") [tName]) }
        | (w₃, none) => some { file := some (deferred fs bw w₃), err := none }

/-- A file system in which every file can be created, a fresh writer holds
nothing, and `path.Join` puts a slash between its two arguments. -/
def plainFiles : FileSys Bytes :=
  { Create := fun _ => .ok [],
    Close := fun w => w,
    Join := fun a b => a ++ ascii "/" ++ b }

/-- The state of a `bufio.Writer` over a file: the bytes in the buffer, the
bytes that reached the file, and the sticky error `b.err`. -/
structure BufState where
  buf : Bytes
  file : Bytes
  err : Option GoError
  deriving DecidableEq, Repr

/-- The error of a write to a full disk. -/
def noSpace : GoError := ascii "no space left on device"

/-- A `bufio.Writer` of the default size 4096 over a file on which every
`Write` fails with `noSpace` and writes nothing.  `WriteString` returns the
sticky error when there is one; a string longer than the room left fills the
buffer and flushes, which fails; any other string is copied into the buffer.
`Flush` returns the sticky error, does nothing on an empty buffer, and
otherwise calls the failing `Write` and keeps its error. -/
def fullDisk : BufioWriter BufState :=
  { WriteString := fun b s =>
      if b.err ≠ none then (b, b.err)
      else if s.length > 4096 - b.buf.length then
        ({ b with buf := b.buf ++ s.take (4096 - b.buf.length), err := some noSpace },
          some noSpace)
      else ({ b with buf := b.buf ++ s }, none),
    Flush := fun b =>
      if b.err ≠ none then (b, b.err)
      else if b.buf = [] then (b, none)
      else ({ b with err := some noSpace }, some noSpace) }

/-- A file system in which every file can be created and the fresh writer
has an empty buffer over an empty file. -/
def fullDiskFiles : FileSys BufState :=
  { Create := fun _ => .ok { buf := [], file := [], err := none },
    Close := fun b => b,
    Join := fun a b => a ++ ascii "/" ++ b }

/-! ## The emitted text in the words of the specification -/

/-- The field line of a column: a tab, the field name, a space, the field type,
a space, the tag `json:"<colName>"` between backticks, then ` // ` and the
comment when the comment is not empty. -/
def fieldText (fieldName fieldType : Bytes) (c : ColumnSchema) : Bytes :=
  [9] ++ fieldName ++ [32] ++ fieldType ++ [32] ++
    ([96] ++ ascii "json:" ++ [34] ++ c.colName ++ [34] ++ [96]) ++
    (if c.comment = [] then [] else ascii " // " ++ c.comment)

/-- The type declaration: `type `, the type name, ` struct {`, a newline, the
field lines joined by newlines, a newline, `}`, a newline. -/
def structText (typeName : Bytes) (lines : List Bytes) : Bytes :=
  ascii "type " ++ typeName ++ ascii " struct \x7b" ++ [10] ++ stringsJoin lines [10] ++
    [10] ++ ascii "\x7d" ++ [10]

/-- The header block: the provenance comment with the time stamp, the comment
naming the file and the source table, a blank line, the package declaration, a
blank line, the fixed import block and a blank line. -/
def headerText (now dbName tName pName : Bytes) : Bytes :=
  ascii "// Code generated by ModelQ, " ++ now ++ [10] ++
    ascii "// " ++ tName ++ ascii ".go contains model for the database table [" ++
      dbName ++ ascii "." ++ tName ++ ascii "]" ++ [10] ++
    [10] ++
    ascii "package " ++ pName ++ [10] ++
    [10] ++
    ascii "import (\n\t\"time\"\n\t\"github.com/mijia/modelq/gmq\"\n\t\"database/sql\"\n)" ++ [10] ++
    [10]

/-- The footer block: a comment line and one reference to each of the imports
`time`, `sql` and `gmq`, followed by two empty lines. -/
def footerText : Bytes :=
  ascii "// just to bypass the golang import check" ++ [10] ++
    ascii "var _ = time.Now" ++ [10] ++
    ascii "var _ sql.DB" ++ [10] ++
    ascii "var _ gmq.OptionInt" ++ [10] ++
    [10] ++ [10]

/-- The functional scan in the words of the refinement claim: one step appends
the recased letter or the digit to the output built so far. -/
def scanStep (acc : Bytes × Bool) (ch : Nat) : Bytes × Bool :=
  if isLetter ch then (acc.1 ++ [if acc.2 then upcase ch else downcase ch], false)
  else if isDigit ch then (acc.1 ++ [ch], true)
  else (acc.1, true)

/-- The functional scan of `name` into a fresh output. -/
def scanFresh (name : Bytes) : Bytes := (name.foldl scanStep ([], true)).1

/-- The columns of the table `users` of the end-to-end example. -/
def usersColumns (n₁ n₂ : Bool) : TableSchema :=
  [{ colName := ascii "id", dataType := ascii "bigint", isNullable := n₁, comment := [] },
   { colName := ascii "user_name", dataType := ascii "varchar", isNullable := n₂,
     comment := ascii "login name" }]

/-- The state of the loop of `toCapitalCase` on the input `pre ++ post` once
the bytes of `pre` have been read. -/
def capInv (pre post : Bytes) : CapState :=
  { data := capScan true pre ++ (pre ++ post).drop (capScan true pre).length,
    segStart := capFlag true pre,
    endPos := (capScan true pre).length }

/-! ## Lemmas on the scan -/

theorem capScan_append (seg : Bool) (l₁ l₂ : Bytes) :
    capScan seg (l₁ ++ l₂) = capScan seg l₁ ++ capScan (capFlag seg l₁) l₂ := by
  induction l₁ generalizing seg with
  | nil => simp [capScan, capFlag]
  | cons c l ih =>
    by_cases hl : isLetter c = true
    · simp [capScan, capFlag, hl, ih]
    · by_cases hd : isDigit c = true
      · simp [capScan, capFlag, hl, hd, ih]
      · simp [capScan, capFlag, hl, hd, ih]

theorem capFlag_append (seg : Bool) (l₁ l₂ : Bytes) :
    capFlag seg (l₁ ++ l₂) = capFlag (capFlag seg l₁) l₂ := by
  induction l₁ generalizing seg with
  | nil => simp [capFlag]
  | cons c l ih => simp [capFlag, ih]

theorem capScan_length_le (seg : Bool) (l : Bytes) : (capScan seg l).length ≤ l.length := by
  induction l generalizing seg with
  | nil => simp [capScan]
  | cons c l ih =>
    have h1 := ih true
    have h2 := ih false
    simp only [capScan]
    split_ifs <;> simp <;> omega

theorem capInv_data_length (pre post : Bytes) :
    (capInv pre post).data.length = (pre ++ post).length := by
  have h := capScan_length_le true pre
  simp [capInv]
  omega

theorem capInv_getElem (pre post : Bytes) (c : Nat) :
    (capInv pre (c :: post)).data[pre.length]? = some c := by
  have h := capScan_length_le true pre
  simp only [capInv]
  rw [List.getElem?_append_right h, List.getElem?_drop]
  have : (capScan true pre).length + (pre.length - (capScan true pre).length) = pre.length := by
    omega
  rw [this, List.getElem?_append_right (le_refl _)]
  simp

theorem capInv_put (pre post : Bytes) (c ch : Nat) (seg : Bool) :
    (capInv pre (c :: post)).put ch seg =
      some { data := (capScan true pre ++ [ch]) ++
                        (pre ++ c :: post).drop ((capScan true pre).length + 1),
             segStart := seg,
             endPos := (capScan true pre).length + 1 } := by
  have h := capScan_length_le true pre
  have hlen := capInv_data_length pre (c :: post)
  have hlt : (capInv pre (c :: post)).endPos < (capInv pre (c :: post)).data.length := by
    rw [hlen]; simp [capInv]; omega
  have hd : (capScan true pre).length < (pre ++ c :: post).length := by simp; omega
  have hset : (capScan true pre ++ (pre ++ c :: post).drop (capScan true pre).length).set
        (capScan true pre).length ch =
      (capScan true pre ++ [ch]) ++ (pre ++ c :: post).drop ((capScan true pre).length + 1) := by
    rw [List.set_append_right _ _ (le_refl _), List.drop_eq_getElem_cons hd]
    simp only [Nat.sub_self, List.set_cons_zero, List.append_assoc, List.singleton_append]
  simp only [CapState.put, hlt, if_true]
  simp only [capInv, hset]

theorem capStep_capInv (pre post : Bytes) (c : Nat) :
    capStep (capInv pre (c :: post)) pre.length = some (capInv (pre ++ [c]) post) := by
  have hput := fun ch seg => capInv_put pre post c ch seg
  have hflag : (capInv pre (c :: post)).segStart = capFlag true pre := rfl
  simp only [capStep, capInv_getElem]
  by_cases hl : isLetter c = true
  · by_cases hs : capFlag true pre = true
    · simp only [hl, hflag, hs, if_true, hput]
      simp [hl, hs, capInv, capScan_append, capFlag_append, capScan, capFlag]
    · simp only [hl, hflag, hs, if_true, if_false, hput]
      simp [hl, hs, capInv, capScan_append, capFlag_append, capScan, capFlag]
  · by_cases hd : isDigit c = true
    · simp only [hl, hd, if_true, if_false, hput]
      simp [hl, hd, capInv, capScan_append, capFlag_append, capScan, capFlag]
    · simp [hl, hd, capInv, capScan_append, capFlag_append, capScan, capFlag]

theorem capLoop_prefix (pre post : Bytes) :
    (List.range pre.length).foldlM capStep
        { data := pre ++ post, segStart := true, endPos := 0 } = some (capInv pre post) := by
  induction pre using List.reverseRecOn generalizing post with
  | nil => simp [capInv, capScan, capFlag]
  | append_singleton pre c ih =>
    have h := ih (c :: post)
    simp only [List.append_assoc, List.singleton_append, List.length_append,
      List.length_singleton, List.range_succ, List.foldlM_append] at h ⊢
    rw [h]
    simpa using capStep_capInv pre post c

/-- The in-place loop computes the functional scan. -/
theorem toCapitalCase_eq (name : Bytes) : toCapitalCase name = some (capScan true name) := by
  have h := capLoop_prefix name []
  have hle := capScan_length_le true name
  simp only [List.append_nil] at h
  simp only [toCapitalCase, capLoop, h]
  simp [capInv, hle]

theorem capFlag_snoc (seg : Bool) (pre : Bytes) (c : Nat) :
    capFlag seg (pre ++ [c]) = !isLetter c := by
  rw [capFlag_append]; simp [capFlag]

theorem ruleAt_append_left (pre : Bytes) (c i : Nat) (hi : i < pre.length) :
    ruleAt (pre ++ [c]) i = ruleAt pre i := by
  have h1 : (pre ++ [c]).getD i 0 = pre.getD i 0 := by
    simp [List.getD_eq_getElem?_getD, List.getElem?_append_left hi]
  have h2 : (pre ++ [c]).getD (i - 1) 0 = pre.getD (i - 1) 0 := by
    have hi' : i - 1 < pre.length := by omega
    simp [List.getD_eq_getElem?_getD, List.getElem?_append_left hi']
  simp only [ruleAt, h1, h2]

theorem capScan_snoc_rule (pre : Bytes) (c : Nat) :
    capScan (capFlag true pre) [c] = (ruleAt (pre ++ [c]) pre.length).toList := by
  have h1 : (pre ++ [c]).getD pre.length 0 = c := by
    simp [List.getD_eq_getElem?_getD]
  induction pre using List.reverseRecOn with
  | nil =>
    by_cases hl : isLetter c = true <;> by_cases hd : isDigit c = true <;>
      simp [capScan, capFlag, ruleAt, hl, hd]
  | append_singleton pre d _ =>
    have h2 : (pre ++ [d] ++ [c]).getD ((pre ++ [d]).length - 1) 0 = d := by
      have hlen : (pre ++ [d]).length - 1 = pre.length := by simp
      rw [hlen, List.getD_eq_getElem?_getD, List.append_assoc,
        List.getElem?_append_right (le_refl _)]
      simp
    rw [capFlag_snoc]
    simp only [ruleAt, h1, h2]
    by_cases hl : isLetter c = true <;> by_cases hd : isDigit c = true <;>
      by_cases hp : isLetter d = true <;>
      simp [capScan, hl, hd, hp]

theorem capScan_eq_rule (name : Bytes) : capScan true name = capitalizeByRule name := by
  induction name using List.reverseRecOn with
  | nil => simp [capScan, capitalizeByRule]
  | append_singleton pre c ih =>
    rw [capScan_append, ih, capScan_snoc_rule]
    simp only [capitalizeByRule, List.length_append, List.length_singleton, List.range_succ,
      List.filterMap_append]
    congr 1
    apply List.filterMap_congr
    intro i hi
    exact (ruleAt_append_left pre c i (List.mem_range.mp hi)).symm

/-! ## Byte-level facts on the case conversions -/

theorem isDigit_of_isLetter {c : Nat} (h : isLetter c = true) : isDigit c = false := by
  simp only [isLetter, isLower, isUpper, isDigit, Bool.or_eq_true, Bool.and_eq_true,
    decide_eq_true_eq, Bool.and_eq_false_iff, decide_eq_false_iff_not] at h ⊢
  omega

theorem upcase_facts {c : Nat} (h : isLetter c = true) :
    isUpper (upcase c) = true ∧ isLetter (upcase c) = true ∧
      downcase (upcase c) = downcase c ∧ upcase (upcase c) = upcase c := by
  simp only [isLetter, isLower, isUpper, upcase, downcase, Bool.or_eq_true, Bool.and_eq_true,
    decide_eq_true_eq] at h ⊢
  split_ifs <;> omega

theorem downcase_facts {c : Nat} (h : isLetter c = true) :
    isLower (downcase c) = true ∧ isLetter (downcase c) = true ∧
      downcase (downcase c) = downcase c ∧ upcase (downcase c) = upcase c := by
  simp only [isLetter, isLower, isUpper, upcase, downcase, Bool.or_eq_true, Bool.and_eq_true,
    decide_eq_true_eq] at h ⊢
  split_ifs <;> omega

theorem downcase_of_not_letter {c : Nat} (h : isLetter c = false) : downcase c = c := by
  simp only [isLetter, isLower, isUpper, downcase, Bool.or_eq_false_iff, Bool.and_eq_false_iff,
    decide_eq_false_iff_not, Bool.and_eq_true, decide_eq_true_eq] at h ⊢
  split_ifs <;> omega

theorem capScan_fold (seg : Bool) (l : Bytes) :
    (capScan seg l).map downcase = (l.filter isAlnum).map downcase := by
  induction l generalizing seg with
  | nil => simp [capScan]
  | cons c l ih =>
    by_cases hl : isLetter c = true
    · cases seg <;>
        simp [capScan, isAlnum, hl, ih, (upcase_facts hl).2.2.1, (downcase_facts hl).2.2.1]
    · by_cases hd : isDigit c = true <;> simp [capScan, isAlnum, hl, hd, ih]

theorem capScan_digits (seg : Bool) (l : Bytes) :
    (capScan seg l).filter isDigit = l.filter isDigit := by
  induction l generalizing seg with
  | nil => simp [capScan]
  | cons c l ih =>
    by_cases hl : isLetter c = true
    · have h1 := isDigit_of_isLetter (upcase_facts hl).2.1
      have h2 := isDigit_of_isLetter (downcase_facts hl).2.1
      have h3 := isDigit_of_isLetter hl
      cases seg <;> simp [capScan, hl, ih, h1, h2, h3]
    · by_cases hd : isDigit c = true <;> simp [capScan, hl, hd, ih]

theorem capScan_alnum (seg : Bool) (l : Bytes) : ∀ b ∈ capScan seg l, isAlnum b = true := by
  induction l generalizing seg with
  | nil => simp [capScan]
  | cons c l ih =>
    by_cases hl : isLetter c = true
    · have h1 := (upcase_facts hl).2.1
      have h2 := (downcase_facts hl).2.1
      cases seg <;> simp [capScan, hl, isAlnum, h1, h2] <;> exact fun b hb => by
        simpa [isAlnum] using ih false b hb
    · by_cases hd : isDigit c = true
      · simp [capScan, hl, hd, isAlnum]
        exact fun b hb => by simpa [isAlnum] using ih true b hb
      · simpa [capScan, hl, hd] using ih true

theorem capScan_eq_nil (seg : Bool) (l : Bytes) :
    capScan seg l = [] ↔ ∀ b ∈ l, isAlnum b = false := by
  induction l generalizing seg with
  | nil => simp [capScan]
  | cons c l ih =>
    by_cases hl : isLetter c = true
    · simp [capScan, hl, isAlnum]
    · by_cases hd : isDigit c = true
      · simp [capScan, hl, hd, isAlnum]
      · simp [capScan, hl, hd, isAlnum, ih]

theorem upcase_ne_downcase {c : Nat} (h : isLetter c = true) : upcase c ≠ downcase c := by
  simp only [isLetter, isLower, isUpper, upcase, downcase, Bool.or_eq_true, Bool.and_eq_true,
    decide_eq_true_eq] at h ⊢
  split_ifs <;> omega

theorem upcase_of_not_lower {c : Nat} (h : isLower c = false) : upcase c = c := by
  simp [upcase, h]

theorem isUpper_upcase_iff (c : Nat) : isUpper (upcase c) = true ↔ isLetter c = true := by
  simp only [isLetter, isLower, isUpper, upcase, Bool.or_eq_true,
    Bool.and_eq_true, decide_eq_true_eq]
  split_ifs <;> omega

/-! ## Idempotence of the scan -/

theorem capScan_idem (seg : Bool) (x : Bytes) (hx : ∀ b ∈ x, isAlnum b = true) :
    capScan seg (capScan seg x) = capScan seg x := by
  induction x generalizing seg with
  | nil => simp [capScan]
  | cons c l ih =>
    have hl' : ∀ b ∈ l, isAlnum b = true := fun b hb => hx b (List.mem_cons_of_mem _ hb)
    by_cases hl : isLetter c = true
    · have hu := upcase_facts hl
      have hd := downcase_facts hl
      cases seg
      · simp [capScan, hl, hd.2.1, hd.2.2.1, ih false hl']
      · simp [capScan, hl, hu.2.1, hu.2.2.2, ih false hl']
    · have hc : isDigit c = true := by
        have := hx c (List.mem_cons_self _ _)
        simpa [isAlnum, hl] using this
      simp [capScan, hl, hc, ih true hl']

theorem capScan_twice (f g : Bool) (x : Bytes) :
    capScan g (capScan f x) = capScan f x ↔ recased f g x = false := by
  induction x generalizing f g with
  | nil => simp [capScan, recased]
  | cons c l ih =>
    by_cases hl : isLetter c = true
    · have hu := upcase_facts hl
      have hd := downcase_facts hl
      have hne := upcase_ne_downcase hl
      cases f <;> cases g <;>
        simp [capScan, recased, hl, hu.2.1, hd.2.1, hu.2.2.1, hu.2.2.2, hd.2.2.1, hd.2.2.2, ih,
          hne, Ne.symm hne]
    · by_cases hc : isDigit c = true
      · simp [capScan, recased, hl, hc, ih]
      · simp [capScan, recased, hl, hc, ih]

theorem letterNext_cons (c : Nat) (l : Bytes) :
    LetterNext (c :: l) ↔ isLetter c = true ∨ (isAlnum c = false ∧ LetterNext l) := by
  constructor
  · rintro ⟨seps, m, b, h, hm, hs⟩
    cases seps with
    | nil =>
      simp only [List.nil_append, List.cons.injEq] at h
      exact Or.inl (h.1 ▸ hm)
    | cons s seps =>
      simp only [List.cons_append, List.cons.injEq] at h
      refine Or.inr ⟨h.1 ▸ hs s (List.mem_cons_self _ _), seps, m, b, h.2, hm, ?_⟩
      exact fun t ht => hs t (List.mem_cons_of_mem _ ht)
  · rintro (h | ⟨hc, seps, m, b, h, hm, hs⟩)
    · exact ⟨[], c, l, rfl, h, by simp⟩
    · refine ⟨c :: seps, m, b, by simp [h], hm, ?_⟩
      intro t ht
      rcases List.mem_cons.mp ht with rfl | ht
      · exact hc
      · exact hs t ht

theorem sepBetween_cons (c : Nat) (l : Bytes) :
    SeparatorBetweenLetters (c :: l) ↔
      SeparatorBetweenLetters l ∨ (isLetter c = true ∧ SepsThenLetter l) := by
  constructor
  · rintro ⟨a, l0, seps, m, b, h, hl, hm, hne, hs⟩
    cases a with
    | nil =>
      simp only [List.nil_append, List.cons.injEq] at h
      cases seps with
      | nil => exact absurd rfl hne
      | cons d seps =>
        refine Or.inr ⟨h.1 ▸ hl, d, seps ++ m :: b, by simp [h.2], ?_, seps, m, b, rfl, hm, ?_⟩
        · exact hs d (List.mem_cons_self _ _)
        · exact fun t ht => hs t (List.mem_cons_of_mem _ ht)
    | cons a0 a =>
      simp only [List.cons_append, List.cons.injEq] at h
      exact Or.inl ⟨a, l0, seps, m, b, h.2, hl, hm, hne, hs⟩
  · rintro (⟨a, l0, seps, m, b, h, hl, hm, hne, hs⟩ | ⟨hc, d, l', h, hd, seps, m, b, h', hm, hs⟩)
    · exact ⟨c :: a, l0, seps, m, b, by simp [h], hl, hm, hne, hs⟩
    · refine ⟨[], c, d :: seps, m, b, by simp [h, h'], hc, hm, by simp, ?_⟩
      intro t ht
      rcases List.mem_cons.mp ht with rfl | ht
      · exact hd
      · exact hs t ht

theorem sepsThenLetter_cons (c : Nat) (l : Bytes) :
    SepsThenLetter (c :: l) ↔ isAlnum c = false ∧ LetterNext l := by
  constructor
  · rintro ⟨d, l', h, hd, hn⟩
    simp only [List.cons.injEq] at h
    exact ⟨h.1 ▸ hd, h.2 ▸ hn⟩
  · rintro ⟨hc, hn⟩
    exact ⟨c, l, rfl, hc, hn⟩

theorem recased_iff (x : Bytes) :
    (recased true true x = true ↔ SeparatorBetweenLetters x) ∧
    (recased false false x = true ↔ SeparatorBetweenLetters x ∨ SepsThenLetter x) ∧
    (recased true false x = true ↔ SeparatorBetweenLetters x ∨ LetterNext x) := by
  induction x with
  | nil =>
    have h1 : ¬ SeparatorBetweenLetters [] := by
      rintro ⟨a, l0, seps, m, b, h, _⟩
      simp at h
    have h2 : ¬ SepsThenLetter [] := by
      rintro ⟨d, l, h, _⟩
      simp at h
    have h3 : ¬ LetterNext [] := by
      rintro ⟨seps, m, b, h, _⟩
      simp at h
    simp [recased, h1, h2, h3]
  | cons c l ih =>
    obtain ⟨ih1, ih2, ih3⟩ := ih
    by_cases hl : isLetter c = true
    · have ha : isAlnum c = true := by simp [isAlnum, hl]
      simp only [recased, hl, if_true, sepBetween_cons, sepsThenLetter_cons, letterNext_cons,
        ha, ih2, bne_self_eq_false, Bool.false_or, true_and]
      simp
    · by_cases hd : isDigit c = true
      · have ha : isAlnum c = true := by simp [isAlnum, hd]
        simp only [recased, hl, hd, if_true, if_false, sepBetween_cons, sepsThenLetter_cons,
          letterNext_cons, ha, ih1]
        simp [ih1]
      · have ha : isAlnum c = false := by
          simp only [Bool.not_eq_true] at hl hd
          simp [isAlnum, hl, hd]
        simp only [recased, hl, hd, if_false, sepBetween_cons, sepsThenLetter_cons,
          letterNext_cons, ha, ih1, ih3]
        simp [ih1, ih3]

theorem capScan_head (name : Bytes) :
    (capScan true name).head? = (name.find? isAlnum).map upcase := by
  induction name with
  | nil => simp [capScan]
  | cons c l ih =>
    by_cases hl : isLetter c = true
    · simp [capScan, hl, isAlnum]
    · by_cases hd : isDigit c = true
      · have hlow : isLower c = false := by
          simp only [isLetter, Bool.or_eq_true, not_or, Bool.not_eq_true] at hl
          exact hl.1
        simp [capScan, hl, hd, isAlnum, upcase_of_not_lower hlow]
      · simp [capScan, hl, hd, isAlnum, ih]

/-! ## Lemmas on the column-type mapping and on `writeStruct` -/

theorem lowerASCII_facts (c : Nat) :
    lowerASCII (lowerASCII c) = lowerASCII c ∧ (c < 128 → lowerASCII c < 128) := by
  simp only [lowerASCII, isUpper, Bool.and_eq_true, decide_eq_true_eq]
  split_ifs <;> omega

theorem stringsToLower_ascii_idem (uni : Bytes → Bytes) (s : Bytes) (hs : isASCII s = true) :
    stringsToLower uni (stringsToLower uni s) = stringsToLower uni s := by
  have hs' : isASCII (s.map lowerASCII) = true := by
    simp only [isASCII, List.all_eq_true, decide_eq_true_eq, List.mem_map] at hs ⊢
    rintro x ⟨c, hc, rfl⟩
    exact (lowerASCII_facts c).2 (hs c hc)
  simp only [stringsToLower, hs, hs', if_true, List.map_map]
  apply List.map_congr_left
  intro c _
  exact (lowerASCII_facts c).1

theorem stringsToLower_idem (uni : Bytes → Bytes)
    (huni : ∀ s, isASCII s = false → stringsToLower uni (uni s) = uni s) (s : Bytes) :
    stringsToLower uni (stringsToLower uni s) = stringsToLower uni s := by
  by_cases hs : isASCII s = true
  · exact stringsToLower_ascii_idem uni s hs
  · simp only [Bool.not_eq_true] at hs
    have h : stringsToLower uni s = uni s := by simp [stringsToLower, hs]
    rw [h, huni s hs]

theorem fieldLine_congr (g g' : Globals) (uni : Bytes → Bytes) (c : ColumnSchema)
    (hg : g.kFieldTypes = g'.kFieldTypes) :
    fieldLine g uni c = fieldLine g' uni c.clearNullable := by
  simp [fieldLine, columnFieldType, ColumnSchema.clearNullable, hg]

theorem fieldLines_congr (g g' : Globals) (uni : Bytes → Bytes) (schema : TableSchema)
    (hg : g.kFieldTypes = g'.kFieldTypes) :
    fieldLines g uni schema = fieldLines g' uni (schema.map ColumnSchema.clearNullable) := by
  induction schema with
  | nil => rfl
  | cons c l ih => simp only [fieldLines, List.map_cons, ih, fieldLine_congr g g' uni c hg]

/-! ## Properties of `toCapitalCase` -/

/-- C1: for every input, `toCapitalCase` returns the documented capitalization
rule applied position by position: a letter is emitted upper-cased exactly when
it is the first byte or the byte before it is not a letter (so in particular
after a digit) and lower-cased otherwise; upper-casing a letter yields an
upper-case letter and lower-casing a lower-case one. -/
theorem toCapitalCase_rule (name : Bytes) :
    toCapitalCase name = some (capitalizeByRule name) ∧
    (∀ ch, isLetter ch = true →
      isUpper (upcase ch) = true ∧ isLower (downcase ch) = true) := by
  refine ⟨by rw [toCapitalCase_eq, capScan_eq_rule], ?_⟩
  intro ch h
  simp only [isLetter, isLower, isUpper, upcase, downcase, Bool.or_eq_true, Bool.and_eq_true,
    decide_eq_true_eq] at h ⊢
  split_ifs <;> omega

/-- C2: for every input, the output of `toCapitalCase` compared
case-insensitively is the input with every byte that is not an ASCII letter or
digit removed; the digits are the input's digits unchanged and in order, and
every byte of the output is a letter or a digit. -/
theorem toCapitalCase_keeps_letters_and_digits (name : Bytes) :
    ∃ out, toCapitalCase name = some out ∧
      out.map downcase = (name.filter isAlnum).map downcase ∧
      out.filter isDigit = name.filter isDigit ∧
      ∀ b ∈ out, isAlnum b = true :=
  ⟨capScan true name, toCapitalCase_eq name, capScan_fold true name, capScan_digits true name,
    capScan_alnum true name⟩

/-- C3: `toCapitalCase` maps the documented examples to the documented
outputs. -/
theorem toCapitalCase_examples :
    toCapitalCase (ascii "cp___hello_12jiu") = some (ascii "CpHello12Jiu") ∧
    toCapitalCase (ascii "") = some (ascii "") ∧
    toCapitalCase (ascii "___") = some (ascii "") ∧
    toCapitalCase (ascii "123abc") = some (ascii "123Abc") := by
  decide

/-- C4: `toCapitalCase` returns a string for every input (no index of the
in-place loop is out of range), and the string is empty exactly when the input
has no letter and no digit. -/
theorem toCapitalCase_total (name : Bytes) :
    ∃ out, toCapitalCase name = some out ∧
      (out = [] ↔ ∀ b ∈ name, isAlnum b = false) :=
  ⟨capScan true name, toCapitalCase_eq name, capScan_eq_nil true name⟩

/-- C5: for every input `x` that consists only of ASCII letters and digits,
`toCapitalCase x` is a string `y` and `toCapitalCase y` is `y` again. -/
theorem toCapitalCase_idempotent_on_alnum (x : Bytes) (hx : ∀ b ∈ x, isAlnum b = true) :
    ∃ y, toCapitalCase x = some y ∧ toCapitalCase y = some y := by
  refine ⟨capScan true x, toCapitalCase_eq x, ?_⟩
  rw [toCapitalCase_eq, capScan_idem true x hx]

/-- Witness of C5 at the input `aB1c`. -/
theorem toCapitalCase_idempotent_on_alnum_witness :
    (∀ b ∈ ascii "aB1c", isAlnum b = true) ∧
      ∃ y, toCapitalCase (ascii "aB1c") = some y ∧ toCapitalCase y = some y :=
  ⟨by decide, toCapitalCase_idempotent_on_alnum (ascii "aB1c") (by decide)⟩

/-- C6, as stated, fails at `a_b` (letters and an underscore): the first pass
gives `AB`, the second pass turns `AB` into `Ab`. -/
theorem toCapitalCase_not_idempotent :
    toCapitalCase (ascii "a_b") = some (ascii "AB") ∧
    toCapitalCase (ascii "AB") = some (ascii "Ab") ∧
    ascii "AB" ≠ ascii "Ab" := by
  decide

/-- C6, amended: `toCapitalCase (toCapitalCase x)` equals `toCapitalCase x`
exactly for the strings `x` in which no run of separators stands between two
letters. -/
theorem toCapitalCase_idempotent_iff (x : Bytes) :
    (∃ y, toCapitalCase x = some y ∧ toCapitalCase y = some y) ↔
      ¬ SeparatorBetweenLetters x := by
  rw [← (recased_iff x).1, Bool.not_eq_true, ← capScan_twice]
  constructor
  · rintro ⟨y, h1, h2⟩
    rw [toCapitalCase_eq] at h1
    cases h1
    rw [toCapitalCase_eq] at h2
    exact Option.some.inj h2
  · intro h
    exact ⟨capScan true x, toCapitalCase_eq x, by rw [toCapitalCase_eq, h]⟩

/-- C7, as stated, fails: on the empty input the result is empty, and on `1a`
the result `1A` begins with a digit. -/
theorem toCapitalCase_not_always_identifier :
    toCapitalCase (ascii "") = some [] ∧
    toCapitalCase (ascii "1a") = some (ascii "1A") ∧
    isUpper 49 = false := by
  decide

/-- C7, amended: for every input the result holds only ASCII letters and
digits, and its first byte is the upper-cased first letter-or-digit byte of the
input when there is one (none otherwise); that byte is an upper-case letter
exactly when the first letter-or-digit byte of the input is a letter. -/
theorem toCapitalCase_identifier_shape (name : Bytes) :
    ∃ out, toCapitalCase name = some out ∧
      (∀ b ∈ out, isAlnum b = true) ∧
      out.head? = (name.find? isAlnum).map upcase ∧
      (∀ c, isUpper (upcase c) = true ↔ isLetter c = true) :=
  ⟨capScan true name, toCapitalCase_eq name, capScan_alnum true name, capScan_head name,
    isUpper_upcase_iff⟩

/-! ## Properties of the column-type mapping and of `writeStruct` -/

/-- C8: the column-type mapping is case-insensitive: for every data type `d`
the field type chosen for `d` is the field type chosen for the lower-cased `d`,
and `BIGINT` and `bigint` both map to `int64`.  The hypothesis is the
property of the library's Unicode lower-casing that its results are already
lower-case. -/
theorem columnFieldType_case_insensitive (g : Globals) (uni : Bytes → Bytes) (d : Bytes)
    (huni : ∀ s, isASCII s = false → stringsToLower uni (uni s) = uni s) :
    columnFieldType g uni d = columnFieldType g uni (stringsToLower uni d) ∧
    columnFieldType init uni (ascii "BIGINT") = ascii "int64" ∧
    columnFieldType init uni (ascii "bigint") = ascii "int64" := by
  refine ⟨?_, rfl, rfl⟩
  simp only [columnFieldType, stringsToLower_idem uni huni d]

/-- Witness of C8 at the data type `VarChar`, with a Unicode lower-casing that
changes nothing. -/
theorem columnFieldType_case_insensitive_witness :
    (∀ s, isASCII s = false → stringsToLower id (id s) = id s) ∧
    columnFieldType init id (ascii "VarChar") =
      columnFieldType init id (stringsToLower id (ascii "VarChar")) :=
  ⟨fun s hs => by simp [stringsToLower, hs],
   (columnFieldType_case_insensitive init id (ascii "VarChar")
      (fun s hs => by simp [stringsToLower, hs])).1⟩

/-- C9: the column-type mapping is a total function that defaults to `string`:
for every data type `d` the chosen field type is the `kFieldTypes` entry of the
lower-cased `d` when that is one of the seven keys, and `string` for every
other `d`, for instance `totally_unknown`. -/
theorem columnFieldType_table (uni : Bytes → Bytes) (d : Bytes) :
    columnFieldType init uni d =
      (if stringsToLower uni d = ascii "bigint" then ascii "int64"
       else if stringsToLower uni d = ascii "int" then ascii "int"
       else if stringsToLower uni d = ascii "tinyint" then ascii "int"
       else if stringsToLower uni d = ascii "char" then ascii "string"
       else if stringsToLower uni d = ascii "varchar" then ascii "string"
       else if stringsToLower uni d = ascii "datetime" then ascii "time.Time"
       else if stringsToLower uni d = ascii "decimal" then ascii "float64"
       else ascii "string") ∧
    columnFieldType init uni (ascii "totally_unknown") = ascii "string" := by
  refine ⟨?_, rfl⟩
  simp only [columnFieldType, init, List.lookup]
  generalize stringsToLower uni d = l
  split_ifs <;> first | (subst_vars; rfl) | simp [beq_eq_decide, *]

/-- C10: neither the `isNullable` flags nor the table `kNullFieldTypes` influence
`writeStruct`: for every writer, table name and two column lists that differ
only in the `isNullable` values, and for any two contents of `kNullFieldTypes`,
the call writes the same text and returns the same result. -/
theorem writeStruct_ignores_nullable {W : Type} (bw : BufioWriter W) (g g' : Globals)
    (uni : Bytes → Bytes) (w : W) (name : Bytes) (s₁ s₂ : TableSchema)
    (hg : g.kFieldTypes = g'.kFieldTypes)
    (hs : s₁.map ColumnSchema.clearNullable = s₂.map ColumnSchema.clearNullable) :
    writeStruct bw g uni w name s₁ = writeStruct bw g' uni w name s₂ := by
  simp only [writeStruct]
  rw [fieldLines_congr g g' uni s₁ hg, hs, ← fieldLines_congr g' g' uni s₂ rfl]

/-- Witness of C10: the table `users` with a nullable and a non-nullable
variant of the same column, and with an emptied `kNullFieldTypes`. -/
theorem writeStruct_ignores_nullable_witness :
    init.kFieldTypes = ({ init with kNullFieldTypes := [] } : Globals).kFieldTypes ∧
    [(⟨ascii "user_name", ascii "varchar", true, ascii "login name"⟩ : ColumnSchema)].map
        ColumnSchema.clearNullable =
      [(⟨ascii "user_name", ascii "varchar", false, ascii "login name"⟩ : ColumnSchema)].map
        ColumnSchema.clearNullable ∧
    writeStruct recorder init id [] (ascii "users")
        [⟨ascii "user_name", ascii "varchar", true, ascii "login name"⟩] =
      writeStruct recorder { init with kNullFieldTypes := [] } id [] (ascii "users")
        [⟨ascii "user_name", ascii "varchar", false, ascii "login name"⟩] :=
  ⟨rfl, rfl, writeStruct_ignores_nullable recorder init { init with kNullFieldTypes := [] } id []
    (ascii "users") [⟨ascii "user_name", ascii "varchar", true, ascii "login name"⟩]
    [⟨ascii "user_name", ascii "varchar", false, ascii "login name"⟩] rfl rfl⟩

/-! ## Lemmas on the emitted text -/

theorem sprintf_fieldTmpl (a b c d : Bytes) :
    sprintf fieldTmpl [a, b, c, d] =
      [9] ++ a ++ [32] ++ b ++ [32] ++ ([96] ++ ascii "json:" ++ [34] ++ c ++ [34] ++ [96]) ++ d := by
  simp [sprintf, fieldTmpl, ascii]

theorem sprintf_structTmpl (t body : Bytes) :
    sprintf structTmpl [t, body] ++ ascii "\n" = structText t [body] := by
  simp [sprintf, structTmpl, structText, stringsJoin, ascii]

theorem structText_join (t : Bytes) (lines : List Bytes) :
    structText t [stringsJoin lines (ascii "\n")] = structText t lines := by
  simp [structText, stringsJoin, ascii]

set_option maxRecDepth 100000 in
theorem sprintf_headerTmpl (now dbName tName pName : Bytes) :
    sprintf headerTmpl [now, tName, dbName, tName, pName] ++ ascii "\n\n" =
      headerText now dbName tName pName := by
  simp [sprintf, headerTmpl, headerText, ascii]

theorem footerTmpl_text : footerTmpl ++ ascii "\n\n" = footerText := by
  decide

theorem fieldLine_eq (g : Globals) (uni : Bytes → Bytes) (c : ColumnSchema) :
    fieldLine g uni c =
      some (fieldText (capScan true c.colName) (columnFieldType g uni c.dataType) c) := by
  simp only [fieldLine, toCapitalCase_eq, sprintf_fieldTmpl, fieldText]
  by_cases h : c.comment = [] <;> simp [h]

theorem fieldLines_eq (g : Globals) (uni : Bytes → Bytes) (schema : TableSchema) :
    fieldLines g uni schema =
      some (schema.map fun c =>
        fieldText (capScan true c.colName) (columnFieldType g uni c.dataType) c) := by
  induction schema with
  | nil => rfl
  | cons c l ih => simp [fieldLines, fieldLine_eq, ih]

theorem writeStruct_eq {W : Type} (bw : BufioWriter W) (g : Globals) (uni : Bytes → Bytes)
    (w : W) (name : Bytes) (schema : TableSchema) :
    writeStruct bw g uni w name schema =
      some (bw.WriteString w (structText (capScan true name)
        (schema.map fun c =>
          fieldText (capScan true c.colName) (columnFieldType g uni c.dataType) c))) := by
  simp only [writeStruct, toCapitalCase_eq, fieldLines_eq]
  simp [sprintf_structTmpl, structText_join]

theorem writeCodeHeader_eq {W : Type} (bw : BufioWriter W) (now : Bytes) (w : W)
    (dbName tName pName : Bytes) :
    writeCodeHeader bw now w dbName tName pName =
      bw.WriteString w (headerText now dbName tName pName) := by
  simp only [writeCodeHeader, sprintf_headerTmpl]

theorem writeCodeFooter_eq {W : Type} (bw : BufioWriter W) (w : W) :
    writeCodeFooter bw w = bw.WriteString w footerText := by
  simp only [writeCodeFooter, footerTmpl_text]

theorem fieldNames_forall₂ (schema : TableSchema) :
    List.Forall₂ (fun c n => toCapitalCase c.colName = some n) schema
      (schema.map fun c => capScan true c.colName) := by
  induction schema with
  | nil => exact List.Forall₂.nil
  | cons c l ih => exact List.Forall₂.cons (toCapitalCase_eq c.colName) ih

theorem zipWith_map_self {α β γ : Type} (f : α → β → γ) (h : α → β) (l : List α) :
    List.zipWith f l (l.map h) = l.map fun a => f a (h a) := by
  induction l with
  | nil => rfl
  | cons a l ih => simp [ih]

/-! ## Properties of the emitted text -/

/-- C11: for every table name and column list, `writeStruct` hands exactly one
text to the writer: `type `, the capitalized table name, ` struct {`, a newline,
the field lines of the columns in input order joined by newlines, a newline,
`}`, a newline; the field line of a column is a tab, the capitalized column
name, a space, the mapped field type, a space, the tag `json:"<colName>"`
between backticks with the column name verbatim, then ` // ` and the comment
when the comment is not empty. -/
theorem writeStruct_text {W : Type} (bw : BufioWriter W) (g : Globals) (uni : Bytes → Bytes)
    (w : W) (name : Bytes) (schema : TableSchema) :
    ∃ typeName fieldNames,
      toCapitalCase name = some typeName ∧
      List.Forall₂ (fun c n => toCapitalCase c.colName = some n) schema fieldNames ∧
      writeStruct bw g uni w name schema =
        some (bw.WriteString w (structText typeName
          (List.zipWith (fun c n => fieldText n (columnFieldType g uni c.dataType) c)
            schema fieldNames))) := by
  refine ⟨capScan true name, schema.map fun c => capScan true c.colName,
    toCapitalCase_eq name, fieldNames_forall₂ schema, ?_⟩
  rw [writeStruct_eq, zipWith_map_self]

/-- C12: on an empty column list `writeStruct` does not fail when the writer
accepts the write, and the text written is a type declaration with an empty
body: `type <CapitalizedName> struct {`, an empty line, `}`. -/
theorem writeStruct_empty {W : Type} (bw : BufioWriter W) (g : Globals) (uni : Bytes → Bytes)
    (w : W) (name : Bytes) (hok : ∀ t, (bw.WriteString w t).2 = none) :
    ∃ typeName,
      toCapitalCase name = some typeName ∧
      writeStruct bw g uni w name [] =
        some ((bw.WriteString w
          (ascii "type " ++ typeName ++ ascii " struct \x7b\n\n\x7d\n")).1, none) := by
  refine ⟨capScan true name, toCapitalCase_eq name, ?_⟩
  have htext : structText (capScan true name) [] =
      ascii "type " ++ capScan true name ++ ascii " struct \x7b\n\n\x7d\n" := by
    simp [structText, stringsJoin, ascii]
  rw [writeStruct_eq, List.map_nil, htext]
  exact congrArg some (Prod.ext rfl (hok _))

/-- Witness of C12: the table `users` without columns, on the recording
writer. -/
theorem writeStruct_empty_witness :
    (∀ t, (recorder.WriteString [] t).2 = none) ∧
    ∃ typeName,
      toCapitalCase (ascii "users") = some typeName ∧
      writeStruct recorder init id [] (ascii "users") [] =
        some ((recorder.WriteString []
          (ascii "type " ++ typeName ++ ascii " struct \x7b\n\n\x7d\n")).1, none) :=
  ⟨fun _ => rfl, writeStruct_empty recorder init id [] (ascii "users") (fun _ => rfl)⟩

/-- C13: for the table `users` with the columns `id` (`bigint`, no comment)
and `user_name` (`varchar`, comment `login name`), `writeStruct` writes the type
`Users` with the fields `Id int64` tagged `json:"id"` without a comment and
`UserName string` tagged `json:"user_name"` with the comment `login name`, in
this order. -/
theorem writeStruct_users {W : Type} (bw : BufioWriter W) (uni : Bytes → Bytes) (w : W)
    (n₁ n₂ : Bool) :
    writeStruct bw init uni w (ascii "users") (usersColumns n₁ n₂) =
      some (bw.WriteString w (ascii
        "type Users struct \x7b\n\tId int64 `json:\"id\"`\n\tUserName string `json:\"user_name\"` // login name\n\x7d\n")) := by
  have h1 : columnFieldType init uni (ascii "bigint") = ascii "int64" := rfl
  have h2 : columnFieldType init uni (ascii "varchar") = ascii "string" := rfl
  rw [writeStruct_eq]
  simp only [usersColumns, List.map, h1, h2]
  congr 2

/-! ## Lemmas on `generateModel` -/

theorem sprintf_error_header (t : Bytes) :
    sprintf (ascii "[%s] Error when writing the header into file.") [t] =
      ascii "[" ++ t ++ ascii "] Error when writing the header into file." := by
  simp [sprintf, ascii]

theorem sprintf_error_struct (t : Bytes) :
    sprintf (ascii "[%s] Error when generating model struct into file.") [t] =
      ascii "[" ++ t ++ ascii "] Error when generating model struct into file." := by
  simp [sprintf, ascii]

theorem sprintf_error_footer (t : Bytes) :
    sprintf (ascii "[%s] Error when generating footer into file.") [t] =
      ascii "[" ++ t ++ ascii "] Error when generating footer into file." := by
  simp [sprintf, ascii]

theorem generateModel_header_fails {W : Type} (fs : FileSys W) (bw : BufioWriter W)
    (g : Globals) (uni : Bytes → Bytes) (now dbName tName : Bytes) (schema : TableSchema)
    (config : CodeConfig) (w₀ w₁ : W) (e : GoError)
    (hc : fs.Create (fs.Join config.packageName (tName ++ ascii ".go")) = .ok w₀)
    (hh : writeCodeHeader bw now w₀ dbName tName config.packageName = (w₁, some e)) :
    generateModel fs bw g uni now dbName tName schema config =
      some { file := some (deferred fs bw w₁),
             err := some (ascii "[" ++ tName ++
               ascii "] Error when writing the header into file.") } := by
  simp only [generateModel, hc, hh, sprintf_error_header]

theorem generateModel_struct_fails {W : Type} (fs : FileSys W) (bw : BufioWriter W)
    (g : Globals) (uni : Bytes → Bytes) (now dbName tName : Bytes) (schema : TableSchema)
    (config : CodeConfig) (w₀ w₁ w₂ : W) (e : GoError)
    (hc : fs.Create (fs.Join config.packageName (tName ++ ascii ".go")) = .ok w₀)
    (hh : writeCodeHeader bw now w₀ dbName tName config.packageName = (w₁, none))
    (hs : writeStruct bw g uni w₁ tName schema = some (w₂, some e)) :
    generateModel fs bw g uni now dbName tName schema config =
      some { file := some (deferred fs bw w₂),
             err := some (ascii "[" ++ tName ++
               ascii "] Error when generating model struct into file.") } := by
  simp only [generateModel, hc, hh, hs, sprintf_error_struct]

theorem generateModel_footer_fails {W : Type} (fs : FileSys W) (bw : BufioWriter W)
    (g : Globals) (uni : Bytes → Bytes) (now dbName tName : Bytes) (schema : TableSchema)
    (config : CodeConfig) (w₀ w₁ w₂ w₃ : W) (e : GoError)
    (hc : fs.Create (fs.Join config.packageName (tName ++ ascii ".go")) = .ok w₀)
    (hh : writeCodeHeader bw now w₀ dbName tName config.packageName = (w₁, none))
    (hs : writeStruct bw g uni w₁ tName schema = some (w₂, none))
    (hf : writeCodeFooter bw w₂ = (w₃, some e)) :
    generateModel fs bw g uni now dbName tName schema config =
      some { file := some (deferred fs bw w₃),
             err := some (ascii "[" ++ tName ++
               ascii "] Error when generating footer into file.") } := by
  simp only [generateModel, hc, hh, hs, hf, sprintf_error_footer]

theorem generateModel_all_ok {W : Type} (fs : FileSys W) (bw : BufioWriter W)
    (g : Globals) (uni : Bytes → Bytes) (now dbName tName : Bytes) (schema : TableSchema)
    (config : CodeConfig) (w₀ w₁ w₂ w₃ : W)
    (hc : fs.Create (fs.Join config.packageName (tName ++ ascii ".go")) = .ok w₀)
    (hh : writeCodeHeader bw now w₀ dbName tName config.packageName = (w₁, none))
    (hs : writeStruct bw g uni w₁ tName schema = some (w₂, none))
    (hf : writeCodeFooter bw w₂ = (w₃, none)) :
    generateModel fs bw g uni now dbName tName schema config =
      some { file := some (deferred fs bw w₃), err := none } := by
  simp only [generateModel, hc, hh, hs, hf]

theorem generateModel_ok_inv {W : Type} (fs : FileSys W) (bw : BufioWriter W)
    (g : Globals) (uni : Bytes → Bytes) (now dbName tName : Bytes) (schema : TableSchema)
    (config : CodeConfig) (r : GenResult W)
    (h : generateModel fs bw g uni now dbName tName schema config = some r)
    (hr : r.err = none) :
    ∃ w₀ w₁ w₂ w₃,
      fs.Create (fs.Join config.packageName (tName ++ ascii ".go")) = .ok w₀ ∧
      writeCodeHeader bw now w₀ dbName tName config.packageName = (w₁, none) ∧
      writeStruct bw g uni w₁ tName schema = some (w₂, none) ∧
      writeCodeFooter bw w₂ = (w₃, none) ∧
      r.file = some (deferred fs bw w₃) := by
  unfold generateModel at h
  split at h
  · cases h; cases hr
  · rename_i w₀ hc
    split at h
    · cases h; cases hr
    · rename_i w₁ hh
      split at h
      · cases h
      · cases h; cases hr
      · rename_i w₂ hs
        split at h
        · cases h; cases hr
        · rename_i w₃ hf
          cases h
          exact ⟨w₀, w₁, w₂, w₃, hc, hh, hs, hf, rfl⟩

/-! ## Lemmas on separators and on the fresh-output scan -/

theorem capScan_sep (seg : Bool) (s : Nat) (l : Bytes) (hs : isAlnum s = false) :
    capScan seg (s :: l) = capScan true l := by
  simp only [isAlnum, Bool.or_eq_false_iff] at hs
  simp [capScan, hs.1, hs.2]

theorem capScan_seps (seps b : Bytes) (h : ∀ t ∈ seps, isAlnum t = false) :
    capScan true (seps ++ b) = capScan true b := by
  induction seps with
  | nil => rfl
  | cons t l ih =>
    rw [List.cons_append, capScan_sep true t _ (h t (List.mem_cons_self _ _))]
    exact ih fun u hu => h u (List.mem_cons_of_mem _ hu)

theorem capScan_around_sep (a b seps : Bytes) (s : Nat) (hs : isAlnum s = false)
    (h : ∀ t ∈ seps, isAlnum t = false) :
    capScan true (a ++ s :: (seps ++ b)) = capScan true a ++ capScan true b := by
  rw [capScan_append, capScan_sep _ s _ hs, capScan_seps seps b h]

theorem foldl_scanStep (acc : Bytes × Bool) (l : Bytes) :
    l.foldl scanStep acc = (acc.1 ++ capScan acc.2 l, capFlag acc.2 l) := by
  induction l generalizing acc with
  | nil => simp [capScan, capFlag]
  | cons c l ih =>
    rw [List.foldl_cons, ih]
    by_cases hl : isLetter c = true
    · simp [scanStep, capScan, capFlag, hl]
    · by_cases hd : isDigit c = true
      · simp [scanStep, capScan, capFlag, hl, hd]
      · simp [scanStep, capScan, capFlag, hl, hd]

theorem scanFresh_eq (name : Bytes) : scanFresh name = capScan true name := by
  simp [scanFresh, foldl_scanStep]

theorem capScan_length (seg : Bool) (l : Bytes) :
    (capScan seg l).length = (l.filter isAlnum).length := by
  have h := congrArg List.length (capScan_fold seg l)
  simpa using h

theorem capInv_drop (pre post : Bytes) : (capInv pre post).data.drop pre.length = post := by
  have h := capScan_length_le true pre
  simp only [capInv]
  rw [List.drop_append_eq_append_drop, List.drop_of_length_le h, List.nil_append,
    List.drop_drop]
  have hlen : (capScan true pre).length + (pre.length - (capScan true pre).length) =
      pre.length := by omega
  rw [hlen, List.drop_left]

/-! ## Properties of `generateModel` -/

set_option maxRecDepth 100000 in
/-- C14, as stated, fails on the table `users`: in the text written, the
closing brace of the type declaration is followed by one newline and then
directly by the footer comment, with no blank line between them. -/
theorem generateModel_no_blank_line_before_footer :
    generateModel plainFiles recorder init id (ascii "2026-01-01 10:00") (ascii "shop")
        (ascii "users") (usersColumns false false) ⟨ascii "models", false⟩ =
      some { err := none, file := some (ascii
        "// Code generated by ModelQ, 2026-01-01 10:00\n// users.go contains model for the database table [shop.users]\n\npackage models\n\nimport (\n\t\"time\"\n\t\"github.com/mijia/modelq/gmq\"\n\t\"database/sql\"\n)\n\ntype Users struct \x7b\n\tId int64 `json:\"id\"`\n\tUserName string `json:\"user_name\"` // login name\n\x7d\n// just to bypass the golang import check\nvar _ = time.Now\nvar _ sql.DB\nvar _ gmq.OptionInt\n\n\n") } := by
  decide

/-- C14, amended: when `generateModel` returns no error, the destination was
created and exactly three texts were written to it, in this order, before the
deferred flush and close: the header block (provenance comment, table comment,
blank line, package declaration, blank line, import block, blank line), the
type declaration ending in a single newline, and directly after it the footer
block (a comment and one reference to each of `time`, `sql` and `gmq`, then two
empty lines). -/
theorem generateModel_text {W : Type} (fs : FileSys W) (bw : BufioWriter W)
    (g : Globals) (uni : Bytes → Bytes) (now dbName tName : Bytes) (schema : TableSchema)
    (config : CodeConfig) (r : GenResult W)
    (h : generateModel fs bw g uni now dbName tName schema config = some r)
    (hr : r.err = none) :
    ∃ w₀ typeName fieldNames,
      fs.Create (fs.Join config.packageName (tName ++ ascii ".go")) = .ok w₀ ∧
      toCapitalCase tName = some typeName ∧
      List.Forall₂ (fun c n => toCapitalCase c.colName = some n) schema fieldNames ∧
      r.file = some (deferred fs bw
        (bw.WriteString
          (bw.WriteString
            (bw.WriteString w₀ (headerText now dbName tName config.packageName)).1
            (structText typeName
              (List.zipWith (fun c n => fieldText n (columnFieldType g uni c.dataType) c)
                schema fieldNames))).1
          footerText).1) := by
  obtain ⟨w₀, w₁, w₂, w₃, hc, hh, hs, hf, hfile⟩ :=
    generateModel_ok_inv fs bw g uni now dbName tName schema config r h hr
  refine ⟨w₀, capScan true tName, schema.map fun c => capScan true c.colName, hc,
    toCapitalCase_eq tName, fieldNames_forall₂ schema, ?_⟩
  rw [writeCodeHeader_eq] at hh
  rw [writeStruct_eq] at hs
  rw [writeCodeFooter_eq] at hf
  have hs' := Option.some.inj hs
  rw [zipWith_map_self, hh, hs', hf, hfile]

/-- Witness of C14: the table `t` without columns, on the recording writer. -/
theorem generateModel_text_witness :
    ∃ r : GenResult Bytes,
      generateModel plainFiles recorder init id (ascii "now") (ascii "db") (ascii "t") []
        ⟨ascii "p", false⟩ = some r ∧ r.err = none ∧
      ∃ w₀ typeName fieldNames,
        plainFiles.Create (plainFiles.Join (ascii "p") (ascii "t" ++ ascii ".go")) = .ok w₀ ∧
        toCapitalCase (ascii "t") = some typeName ∧
        List.Forall₂ (fun c n => toCapitalCase c.colName = some n)
          ([] : TableSchema) fieldNames ∧
        r.file = some (deferred plainFiles recorder
          (recorder.WriteString
            (recorder.WriteString
              (recorder.WriteString w₀ (headerText (ascii "now") (ascii "db") (ascii "t")
                (ascii "p"))).1
              (structText typeName
                (List.zipWith
                  (fun c n => fieldText n (columnFieldType init id c.dataType) c)
                  ([] : TableSchema) fieldNames))).1
            footerText).1) :=
  ⟨_, rfl, rfl, generateModel_text plainFiles recorder init id (ascii "now") (ascii "db")
    (ascii "t") [] ⟨ascii "p", false⟩ _ rfl rfl⟩

/-- C15: in `generateModel`, once the file is created, a block that fails ends
the emission and is reported with the table name and the phase.  If the header
write fails, nothing more is written and the message is
`[<table>] Error when writing the header into file.`; if the type declaration
fails, the footer is not written and the message is
`[<table>] Error when generating model struct into file.`; if the footer fails,
the message is `[<table>] Error when generating footer into file.`; if no block
fails the result is `nil`. -/
theorem generateModel_failure_report {W : Type} (fs : FileSys W) (bw : BufioWriter W)
    (g : Globals) (uni : Bytes → Bytes) (now dbName tName : Bytes) (schema : TableSchema)
    (config : CodeConfig) (w₀ : W)
    (hc : fs.Create (fs.Join config.packageName (tName ++ ascii ".go")) = .ok w₀) :
    (∀ w₁ e, writeCodeHeader bw now w₀ dbName tName config.packageName = (w₁, some e) →
      generateModel fs bw g uni now dbName tName schema config =
        some { file := some (deferred fs bw w₁),
               err := some (ascii "[" ++ tName ++
                 ascii "] Error when writing the header into file.") }) ∧
    (∀ w₁ w₂ e, writeCodeHeader bw now w₀ dbName tName config.packageName = (w₁, none) →
      writeStruct bw g uni w₁ tName schema = some (w₂, some e) →
      generateModel fs bw g uni now dbName tName schema config =
        some { file := some (deferred fs bw w₂),
               err := some (ascii "[" ++ tName ++
                 ascii "] Error when generating model struct into file.") }) ∧
    (∀ w₁ w₂ w₃ e, writeCodeHeader bw now w₀ dbName tName config.packageName = (w₁, none) →
      writeStruct bw g uni w₁ tName schema = some (w₂, none) →
      writeCodeFooter bw w₂ = (w₃, some e) →
      generateModel fs bw g uni now dbName tName schema config =
        some { file := some (deferred fs bw w₃),
               err := some (ascii "[" ++ tName ++
                 ascii "] Error when generating footer into file.") }) ∧
    (∀ w₁ w₂ w₃, writeCodeHeader bw now w₀ dbName tName config.packageName = (w₁, none) →
      writeStruct bw g uni w₁ tName schema = some (w₂, none) →
      writeCodeFooter bw w₂ = (w₃, none) →
      generateModel fs bw g uni now dbName tName schema config =
        some { file := some (deferred fs bw w₃), err := none }) :=
  ⟨fun w₁ e hh =>
      generateModel_header_fails fs bw g uni now dbName tName schema config w₀ w₁ e hc hh,
    fun w₁ w₂ e hh hs =>
      generateModel_struct_fails fs bw g uni now dbName tName schema config w₀ w₁ w₂ e hc hh hs,
    fun w₁ w₂ w₃ e hh hs hf =>
      generateModel_footer_fails fs bw g uni now dbName tName schema config w₀ w₁ w₂ w₃ e
        hc hh hs hf,
    fun w₁ w₂ w₃ hh hs hf =>
      generateModel_all_ok fs bw g uni now dbName tName schema config w₀ w₁ w₂ w₃ hc hh hs hf⟩

/-- Witness of C15: the table `t` without columns, on the recording writer. -/
theorem generateModel_failure_report_witness :
    plainFiles.Create (plainFiles.Join (ascii "p") (ascii "t" ++ ascii ".go")) = .ok [] ∧
    ∀ w₁ w₂ w₃,
      writeCodeHeader recorder (ascii "now") [] (ascii "db") (ascii "t") (ascii "p") =
        (w₁, none) →
      writeStruct recorder init id w₁ (ascii "t") [] = some (w₂, none) →
      writeCodeFooter recorder w₂ = (w₃, none) →
      generateModel plainFiles recorder init id (ascii "now") (ascii "db") (ascii "t") []
          ⟨ascii "p", false⟩ =
        some { file := some (deferred plainFiles recorder w₃), err := none } :=
  ⟨rfl, (generateModel_failure_report plainFiles recorder init id (ascii "now") (ascii "db")
    (ascii "t") [] ⟨ascii "p", false⟩ [] rfl).2.2.2⟩

set_option maxRecDepth 100000 in
/-- C16, evaluated on a full disk: for the table `users` every `WriteString`
only fills the buffer and succeeds, the deferred `Flush` is the first call that
writes to the file and fails, and `generateModel` returns no error although
nothing reached the file and the writer holds the error. -/
theorem generateModel_drops_flush_error :
    generateModel fullDiskFiles fullDisk init id (ascii "2026-01-01 10:00") (ascii "shop")
        (ascii "users") (usersColumns false false) ⟨ascii "models", false⟩ =
      some { err := none,
             file := some
               { buf := headerText (ascii "2026-01-01 10:00") (ascii "shop") (ascii "users")
                          (ascii "models") ++
                        structText (ascii "Users")
                          [fieldText (ascii "Id") (ascii "int64")
                             ⟨ascii "id", ascii "bigint", false, []⟩,
                           fieldText (ascii "UserName") (ascii "string")
                             ⟨ascii "user_name", ascii "varchar", false, ascii "login name"⟩] ++
                        footerText,
                 file := [],
                 err := some noSpace } } := by
  decide

/-- C18: `toCapitalCase` distributes over a separator: for a byte `s` that is
neither a letter nor a digit, the result for `a ++ [s] ++ b` is the result for
`a` followed by the result for `b`; a run of separators acts as a single one,
and a leading or trailing separator changes nothing. -/
theorem toCapitalCase_separator (a b seps : Bytes) (s : Nat) (hs : isAlnum s = false)
    (hseps : ∀ t ∈ seps, isAlnum t = false) :
    ∃ x y, toCapitalCase a = some x ∧ toCapitalCase b = some y ∧
      toCapitalCase (a ++ [s] ++ b) = some (x ++ y) ∧
      toCapitalCase (a ++ s :: seps ++ b) = some (x ++ y) ∧
      toCapitalCase (s :: b) = some y ∧
      toCapitalCase (a ++ [s]) = some x := by
  refine ⟨capScan true a, capScan true b, toCapitalCase_eq a, toCapitalCase_eq b, ?_, ?_, ?_, ?_⟩
  · have h := capScan_around_sep a b [] s hs (by simp)
    rw [toCapitalCase_eq]
    simpa using h
  · have h := capScan_around_sep a b seps s hs hseps
    rw [toCapitalCase_eq]
    simpa using h
  · rw [toCapitalCase_eq, capScan_sep true s b hs]
  · have h := capScan_around_sep a [] [] s hs (by simp)
    rw [toCapitalCase_eq]
    simpa [capScan] using h

/-- Witness of C18: `ab`, an underscore and more underscores, `cd`. -/
theorem toCapitalCase_separator_witness :
    isAlnum 95 = false ∧ (∀ t ∈ ascii "__", isAlnum t = false) ∧
    ∃ x y, toCapitalCase (ascii "ab") = some x ∧ toCapitalCase (ascii "cd") = some y ∧
      toCapitalCase (ascii "ab" ++ [95] ++ ascii "cd") = some (x ++ y) ∧
      toCapitalCase (ascii "ab" ++ 95 :: ascii "__" ++ ascii "cd") = some (x ++ y) ∧
      toCapitalCase (95 :: ascii "cd") = some y ∧
      toCapitalCase (ascii "ab" ++ [95]) = some x :=
  ⟨by decide, by decide,
    toCapitalCase_separator (ascii "ab") (ascii "cd") (ascii "__") 95 (by decide) (by decide)⟩

/-- C19: the in-place rewrite of `toCapitalCase` is safe and computes the
functional scan.  On the input `pre ++ post`, the iterations that read `pre`
do not panic and leave the write cursor `endPos` at most at the read index, the
length of `data` unchanged and the unread bytes `post` intact; the loop ends
with `endPos` equal to the number of letters and digits of the input, at most
its length, and the returned prefix `data[:endPos]` is the output of the scan
that appends each recased letter and each digit to a fresh output. -/
theorem toCapitalCase_in_place (pre post : Bytes) :
    (∃ st, (List.range pre.length).foldlM capStep
          { data := pre ++ post, segStart := true, endPos := 0 } = some st ∧
        st.endPos ≤ pre.length ∧
        st.data.length = (pre ++ post).length ∧
        st.data.drop pre.length = post) ∧
    (∃ st, capLoop (pre ++ post) = some st ∧
        st.endPos = ((pre ++ post).filter isAlnum).length ∧
        st.endPos ≤ (pre ++ post).length ∧
        toCapitalCase (pre ++ post) = some (st.data.take st.endPos) ∧
        st.data.take st.endPos = scanFresh (pre ++ post)) := by
  constructor
  · exact ⟨capInv pre post, capLoop_prefix pre post, capScan_length_le true pre,
      capInv_data_length pre post, capInv_drop pre post⟩
  · have h := capLoop_prefix (pre ++ post) []
    rw [List.append_nil] at h
    have hle := capScan_length_le true (pre ++ post)
    have htake : (capInv (pre ++ post) []).data.take (capInv (pre ++ post) []).endPos =
        capScan true (pre ++ post) := by
      simp [capInv]
    refine ⟨capInv (pre ++ post) [], h, capScan_length true (pre ++ post), hle, ?_, ?_⟩
    · rw [toCapitalCase_eq, htake]
    · rw [htake, scanFresh_eq]

/-- C20: `toCapitalCase` is not injective, so `writeStruct` can emit the same
field name twice: the distinct column names `user_name` and `user__name` both
give the field `UserName`, with different `json` tags; the names `a_b` and
`A_B` collide in the same way. -/
theorem writeStruct_duplicate_field_names :
    ascii "user_name" ≠ ascii "user__name" ∧
    toCapitalCase (ascii "user_name") = toCapitalCase (ascii "user__name") ∧
    writeStruct recorder init id [] (ascii "t")
        [⟨ascii "user_name", ascii "int", false, []⟩,
         ⟨ascii "user__name", ascii "int", false, []⟩] =
      some (ascii
        "type T struct \x7b\n\tUserName int `json:\"user_name\"`\n\tUserName int `json:\"user__name\"`\n\x7d\n",
        none) ∧
    ascii "a_b" ≠ ascii "A_B" ∧
    toCapitalCase (ascii "a_b") = toCapitalCase (ascii "A_B") := by
  decide

end ModelQ
